import Mathlib

/-!
Verification of the `yid_py` base-62 identifier codec (`src/yid_py/converter.py`)
against its natural-language specification.

Modelling conventions:
* Python `int` is `ℤ`; values known non-negative are `ℕ`.
* Fallible Python code (exceptions) is `Except PyErr`.
* `_num_to_alpha` computes `t = int(math.log(number, _DICT_LEN))`, a
  floating-point estimate of the highest base-62 power.  IEEE-754 `log` is not
  shallowly embeddable, so the estimate is an explicit parameter
  `est : ℕ → ℕ` of the embedded encoder; theorems either hold for every
  estimate, assume the estimate is the exact `Nat.log`, or plug in the value
  the CPython float computation is observed to produce at a concrete input
  (those observed values are recorded in the doc comment of each such theorem).
* `hashlib.sha256/.sha512` are external library calls; the hex digests are
  passed to `_secure_dictionary` as parameters (a SHA-256 hex digest always
  has length 64, a SHA-512 one length 128).
* Python `sorted(..., key=lambda x: x[0], reverse=True)` is a stable sort
  placing larger keys first; it is modelled by `List.mergeSort` (stable) with
  the comparator `fun x y => y.1 ≤ x.1`.
-/

namespace YidPy

open scoped List

/-- PyErr models the Python exceptions that the translated code can raise:
`mathDomain` is the `ValueError: math domain error` from `math.log` on a
non-positive argument, `substringNotFound` is the `ValueError` raised by
`str.index` when the character is absent, `zipMismatch` is the `ValueError`
raised by `zip(..., strict=True)` on unequal lengths, and `invalidTransform`
is the repository's own `ConverterError` raised by `_apply_transform`. -/
inductive PyErr where
  | mathDomain
  | substringNotFound
  | zipMismatch
  | invalidTransform (v : String)
  deriving DecidableEq

/-- Transform models the values a caller can pass for the `transform`
parameter: the three members of the `Transform` enum, plus `invalid v` for
any other Python value (Python is dynamically typed, and the repository's own
tests exercise `_apply_transform("test", "invalid")`), which the `case _`
wildcard of `_apply_transform` turns into a `ConverterError`. -/
inductive Transform where
  | NONE
  | UPPER
  | LOWER
  | invalid (v : String)
  deriving DecidableEq

/-- Python: `_DICTIONARY = string.ascii_lowercase + string.digits + string.ascii_uppercase`. -/
def _DICTIONARY : List Char :=
  ("abcdefghijklmnopqrstuvwxyz0123456789ABCDEFGHIJKLMNOPQRSTUVWXYZ").toList

/-- Python: `_DICT_LEN = len(_DICTIONARY)`. -/
def _DICT_LEN : ℕ := _DICTIONARY.length

/-- The padding offset added in `_num_to_alpha` and subtracted in
`_alpha_to_num`: `_DICT_LEN ** (pad_up - 1)` when `pad_up > 1`, else nothing. -/
def padOffset (pad_up : ℤ) : ℤ :=
  if 1 < pad_up then ((_DICT_LEN : ℤ)) ^ (pad_up - 1).toNat else 0

/-- The `while t >= 0` loop of `_num_to_alpha`, with the loop counter `t`
counting down: at each step `bcp = _DICT_LEN ** t`,
`index = (number // bcp) % _DICT_LEN`, the character `dictionary[index]` is
emitted and `index * bcp` is subtracted from `number`. -/
def numLoop (dictionary : List Char) : ℕ → ℕ → List Char
  | n, 0 => [dictionary.getD (n % _DICT_LEN) 'a']
  | n, t + 1 =>
    dictionary.getD (n / _DICT_LEN ^ (t + 1) % _DICT_LEN) 'a' ::
      numLoop dictionary (n - n / _DICT_LEN ^ (t + 1) % _DICT_LEN * _DICT_LEN ^ (t + 1)) t

/-- Python `_num_to_alpha(number, dictionary, pad_up)`.  `est` stands for the
floating-point computation `fun number => int(math.log(number, _DICT_LEN))`
(only ever applied to a positive number).  `math.log` raises
`ValueError: math domain error` on a non-positive argument, which is how a
negative (post-offset) number fails. -/
def _num_to_alpha_est (est : ℕ → ℕ) (number : ℤ) (dictionary : List Char)
    (pad_up : ℤ) : Except PyErr (List Char) :=
  let number' := number + padOffset pad_up
  if number' = 0 then .ok [dictionary.getD 0 'a']
  else if number' < 0 then .error .mathDomain
  else .ok (numLoop dictionary number'.toNat (est number'.toNat))

/-- Python `dictionary.index(char)` for a single character: the first index at
which `char` occurs, or `none` (Python: `ValueError: substring not found`). -/
def index : List Char → Char → Option ℕ
  | [], _ => none
  | d :: rest, c => if d = c then some 0 else (index rest c).map (· + 1)

/-- The `for i, char in enumerate(reversed(alphanumeric))` loop of
`_alpha_to_num`: the accumulator starts at 0 and position `i` (from the right)
contributes `dictionary.index(char) * _DICT_LEN ** i`. -/
def alphaLoop (dictionary : List Char) : List Char → ℤ → ℕ → Except PyErr ℤ
  | [], result, _ => .ok result
  | c :: rest, result, i =>
    match index dictionary c with
    | none => .error .substringNotFound
    | some idx =>
      alphaLoop dictionary rest (result + (idx : ℤ) * ((_DICT_LEN : ℤ)) ^ i) (i + 1)

/-- Python `_alpha_to_num(alphanumeric, dictionary, pad_up)`. -/
def _alpha_to_num (alphanumeric : List Char) (dictionary : List Char)
    (pad_up : ℤ) : Except PyErr ℤ :=
  (alphaLoop dictionary alphanumeric.reverse 0 0).map
    (fun result => result - padOffset pad_up)

/-- Python `value.upper()`; on the ASCII alphanumerics used here this is a
character-wise uppercase map. -/
def pyUpper (value : List Char) : List Char := value.map Char.toUpper

/-- Python `value.lower()`; on the ASCII alphanumerics used here this is a
character-wise lowercase map. -/
def pyLower (value : List Char) : List Char := value.map Char.toLower

/-- Python `_apply_transform(value, transform)`, including the `case _`
wildcard raising `ConverterError`. -/
def _apply_transform (value : List Char) (transform : Transform) :
    Except PyErr (List Char) :=
  match transform with
  | .NONE => .ok value
  | .UPPER => .ok (pyUpper value)
  | .LOWER => .ok (pyLower value)
  | .invalid v => .error (.invalidTransform v)

/-- Python `_secure_dictionary(secure_key)`, with the two hex digests of the
key passed as parameters.  The SHA-512 digest is used only when the SHA-256
hex digest has fewer than `_DICT_LEN` characters (it never does: its length
is 64).  `zip(..., strict=True)` fails when `secure_hash[:_DICT_LEN]` is
shorter than `_DICTIONARY`, and `sorted(..., key=lambda x: x[0],
reverse=True)` is the stable descending sort on the hex character. -/
def _secure_dictionary (sha256hex sha512hex : List Char) :
    Except PyErr (List Char) :=
  let secure_hash := if sha256hex.length < _DICT_LEN then sha512hex else sha256hex
  if secure_hash.length < _DICT_LEN then .error .zipMismatch
  else
    .ok ((((secure_hash.take _DICT_LEN).zip _DICTIONARY).mergeSort
      (fun x y => decide (y.1 ≤ x.1))).map (fun p => p.2))

/-- The dictionary-selection expression
`_secure_dictionary(secure_key) if secure_key else _DICTIONARY` shared by
`to_alphanumeric`, `to_numeric` and `Encoder.__init__` (`None` and the empty
string are both falsy). -/
def pickDictionary (secure_key : Option String) (sha256hex sha512hex : List Char) :
    Except PyErr (List Char) :=
  match secure_key with
  | none => .ok _DICTIONARY
  | some k => if k.length = 0 then .ok _DICTIONARY else _secure_dictionary sha256hex sha512hex

/-- Python `to_alphanumeric(number, pad_up, secure_key, transform)`. -/
def to_alphanumeric (est : ℕ → ℕ) (number : ℤ) (pad_up : ℤ)
    (secure_key : Option String) (sha256hex sha512hex : List Char)
    (transform : Transform) : Except PyErr (List Char) :=
  (pickDictionary secure_key sha256hex sha512hex).bind fun dictionary =>
    (_num_to_alpha_est est number dictionary pad_up).bind fun result =>
      _apply_transform result transform

/-- Python `to_numeric(alphanumeric, pad_up, secure_key)`. -/
def to_numeric (alphanumeric : List Char) (pad_up : ℤ)
    (secure_key : Option String) (sha256hex sha512hex : List Char) :
    Except PyErr ℤ :=
  (pickDictionary secure_key sha256hex sha512hex).bind fun dictionary =>
    _alpha_to_num alphanumeric dictionary pad_up

/-- The state of a Python `Encoder` after `__init__`: the held configuration
(`_pad_up`, `_dictionary`, `_transform`); `_dictionary` is computed once via
`pickDictionary`. -/
structure Encoder where
  pad_up : ℤ
  dictionary : List Char
  transform : Transform

/-- Python `Encoder.encode_raw(number)`. -/
def Encoder.encode_raw (est : ℕ → ℕ) (e : Encoder) (number : ℤ) :
    Except PyErr (List Char) :=
  _num_to_alpha_est est number e.dictionary e.pad_up

/-- Python `Encoder.encode(number)`. -/
def Encoder.encode (est : ℕ → ℕ) (e : Encoder) (number : ℤ) :
    Except PyErr (List Char) :=
  (_num_to_alpha_est est number e.dictionary e.pad_up).bind fun result =>
    _apply_transform result e.transform

/-- Python `Encoder.decode(alphanumeric)`. -/
def Encoder.decode (e : Encoder) (alphanumeric : List Char) : Except PyErr ℤ :=
  _alpha_to_num alphanumeric e.dictionary e.pad_up

instance {ε α : Type} [DecidableEq ε] [DecidableEq α] : DecidableEq (Except ε α) := fun
  | .ok a, .ok b => decidable_of_iff (a = b) (by simp)
  | .ok _, .error _ => isFalse (by simp)
  | .error _, .ok _ => isFalse (by simp)
  | .error e, .error f => decidable_of_iff (e = f) (by simp)

theorem dict_len_eq : _DICT_LEN = 62 := by decide

example : _num_to_alpha_est (fun _ => 2) 12345 _DICTIONARY 0 =
    .ok (['d', 'n', 'h']) := by decide

example : _alpha_to_num ['d', 'n', 'h'] _DICTIONARY 0 = .ok 12345 := by decide

example : _num_to_alpha_est (fun _ => 0) 61 _DICTIONARY 0 = .ok (['Z']) := by decide

example : _num_to_alpha_est (fun _ => 1) 62 _DICTIONARY 0 = .ok (['b', 'a']) := by decide

theorem getD_eq_get (l : List Char) (n : ℕ) (a : Char) (h : n < l.length) :
    l.getD n a = l.get ⟨n, h⟩ := by
  simp [List.getD_eq_getElem?_getD, List.getElem?_eq_getElem h]

theorem numLoop_length (dictionary : List Char) :
    ∀ (t n : ℕ), (numLoop dictionary n t).length = t + 1 := by
  intro t
  induction t with
  | zero => intro n; rfl
  | succ t ih => intro n; simp [numLoop, ih]

theorem mem_numLoop (dictionary : List Char) (h62 : dictionary.length = 62) :
    ∀ (t n : ℕ) (c : Char), c ∈ numLoop dictionary n t → c ∈ dictionary := by
  intro t
  induction t with
  | zero =>
    intro n c hc
    simp only [numLoop, List.mem_singleton] at hc
    have hlt : n % _DICT_LEN < dictionary.length := by
      rw [h62, dict_len_eq]
      exact Nat.mod_lt _ (by norm_num)
    rw [hc, getD_eq_get _ _ _ hlt]
    exact List.get_mem _ _ hlt
  | succ t ih =>
    intro n c hc
    simp only [numLoop, List.mem_cons] at hc
    rcases hc with hc | hc
    · have hlt : n / _DICT_LEN ^ (t + 1) % _DICT_LEN < dictionary.length := by
        rw [h62, dict_len_eq]
        exact Nat.mod_lt _ (by norm_num)
      rw [hc, getD_eq_get _ _ _ hlt]
      exact List.get_mem _ _ hlt
    · exact ih _ _ hc

theorem index_eq_none_iff (l : List Char) (c : Char) :
    index l c = none ↔ c ∉ l := by
  induction l with
  | nil => simp [index]
  | cons d rest ih =>
    by_cases h : d = c
    · simp [index, h]
    · simp only [index, if_neg h, Option.map_eq_none', ih, List.mem_cons, not_or]
      constructor
      · intro hn
        exact ⟨fun hc => h hc.symm, hn⟩
      · exact fun hp => hp.2

theorem index_get (l : List Char) (hnd : l.Nodup) :
    ∀ (i : ℕ) (h : i < l.length), index l (l.get ⟨i, h⟩) = some i := by
  induction l with
  | nil => intro i h; simp at h
  | cons d rest ih =>
    intro i h
    match i with
    | 0 => simp [index, List.get]
    | Nat.succ j =>
      have hj : j < rest.length := by simpa using h
      have hmem : rest.get ⟨j, hj⟩ ∈ rest := List.get_mem _ _ hj
      have hne : ¬ d = rest.get ⟨j, hj⟩ := by
        intro he
        exact (List.nodup_cons.mp hnd).1 (he ▸ hmem)
      show (if d = rest.get ⟨j, hj⟩ then some 0
        else (index rest (rest.get ⟨j, hj⟩)).map (· + 1)) = some (j + 1)
      rw [if_neg hne, ih (List.nodup_cons.mp hnd).2 j hj]
      rfl

theorem alphaLoop_append (dictionary : List Char) (c : Char) :
    ∀ (l : List Char) (r : ℤ) (i : ℕ),
      alphaLoop dictionary (l ++ [c]) r i =
        (alphaLoop dictionary l r i).bind fun r' =>
          match index dictionary c with
          | none => .error .substringNotFound
          | some idx => .ok (r' + (idx : ℤ) * ((_DICT_LEN : ℤ)) ^ (i + l.length)) := by
  intro l
  induction l with
  | nil =>
    intro r i
    cases hx : index dictionary c <;>
      simp [alphaLoop, hx, Except.bind]
  | cons d rest ih =>
    intro r i
    cases hd : index dictionary d with
    | none => simp [alphaLoop, hd, Except.bind]
    | some idxd =>
      have harith : i + 1 + rest.length = i + (rest.length + 1) := by omega
      simp only [List.cons_append, alphaLoop, hd, List.append_eq]
      rw [ih]
      simp only [List.length_cons, harith]

theorem alphaLoop_numLoop (dictionary : List Char) (h62 : dictionary.length = 62)
    (hnd : dictionary.Nodup) :
    ∀ (t n : ℕ), n < 62 ^ (t + 1) →
      alphaLoop dictionary (numLoop dictionary n t).reverse 0 0 = .ok (n : ℤ) := by
  intro t
  induction t with
  | zero =>
    intro n hn
    have hn62 : n < 62 := by simpa using hn
    have hlt : n < dictionary.length := by rw [h62]; exact hn62
    have hmod : n % _DICT_LEN = n := by
      rw [dict_len_eq]; exact Nat.mod_eq_of_lt hn62
    have hidx : index dictionary (dictionary.get ⟨n, hlt⟩) = some n :=
      index_get dictionary hnd n hlt
    rw [show numLoop dictionary n 0 = [dictionary.get ⟨n, hlt⟩] from by
      simp only [numLoop]; rw [hmod, getD_eq_get _ _ _ hlt]]
    rw [show ([dictionary.get ⟨n, hlt⟩]).reverse = [dictionary.get ⟨n, hlt⟩] from rfl]
    simp only [alphaLoop, hidx]
    norm_num
  | succ t ih =>
    intro n hn
    have hDL : _DICT_LEN = 62 := dict_len_eq
    have hBpos : 0 < (62 : ℕ) ^ (t + 1) := pow_pos (by norm_num) _
    have hq62 : n / 62 ^ (t + 1) < 62 := by
      rw [Nat.div_lt_iff_lt_mul hBpos]
      calc n < 62 ^ (t + 1 + 1) := hn
        _ = 62 * 62 ^ (t + 1) := by ring
    have hqmod : n / _DICT_LEN ^ (t + 1) % _DICT_LEN = n / 62 ^ (t + 1) := by
      rw [hDL]; exact Nat.mod_eq_of_lt hq62
    have hdm := Nat.div_add_mod n (62 ^ (t + 1))
    have hsub : n - n / 62 ^ (t + 1) * 62 ^ (t + 1) = n % 62 ^ (t + 1) := by
      have hc : n / 62 ^ (t + 1) * 62 ^ (t + 1) = 62 ^ (t + 1) * (n / 62 ^ (t + 1)) :=
        Nat.mul_comm _ _
      omega
    have hlt : n / 62 ^ (t + 1) < dictionary.length := by rw [h62]; exact hq62
    have hidx : index dictionary (dictionary.get ⟨n / 62 ^ (t + 1), hlt⟩) =
        some (n / 62 ^ (t + 1)) := index_get dictionary hnd _ hlt
    have hmlt : n % 62 ^ (t + 1) < 62 ^ (t + 1) := Nat.mod_lt _ hBpos
    have hrevlen : (numLoop dictionary (n % 62 ^ (t + 1)) t).reverse.length = t + 1 := by
      rw [List.length_reverse, numLoop_length]
    have hstep : numLoop dictionary n (t + 1) =
        dictionary.get ⟨n / 62 ^ (t + 1), hlt⟩ :: numLoop dictionary (n % 62 ^ (t + 1)) t := by
      simp only [numLoop, hDL]
      rw [Nat.mod_eq_of_lt hq62, hsub, getD_eq_get _ _ _ hlt]
    rw [hstep]
    rw [List.reverse_cons, alphaLoop_append, ih _ hmlt]
    simp only [Except.bind, hidx, hrevlen, Nat.zero_add, hDL]
    have hNat : n % 62 ^ (t + 1) + n / 62 ^ (t + 1) * 62 ^ (t + 1) = n :=
      Nat.mod_add_div' n (62 ^ (t + 1))
    have hcast : ((n % 62 ^ (t + 1) : ℕ) : ℤ) +
        ((n / 62 ^ (t + 1) : ℕ) : ℤ) * ((62 : ℕ) : ℤ) ^ (t + 1) = (n : ℤ) := by
      exact_mod_cast hNat
    rw [hcast]

theorem alphaLoop_error_iff (dictionary : List Char) :
    ∀ (l : List Char) (r : ℤ) (i : ℕ),
      alphaLoop dictionary l r i = .error .substringNotFound ↔ ∃ c ∈ l, c ∉ dictionary := by
  intro l
  induction l with
  | nil => intro r i; simp [alphaLoop]
  | cons c rest ih =>
    intro r i
    cases hc : index dictionary c with
    | none =>
      have hout : c ∉ dictionary := (index_eq_none_iff _ _).mp hc
      simp [alphaLoop, hc, hout]
    | some idx =>
      have hcmem : c ∈ dictionary := by
        by_contra hmem
        exact absurd ((index_eq_none_iff _ _).mpr hmem) (by simp [hc])
      simp [alphaLoop, hc, ih, hcmem]

theorem alphaLoop_ok_or_error (dictionary : List Char) :
    ∀ (l : List Char) (r : ℤ) (i : ℕ),
      (∃ v, alphaLoop dictionary l r i = .ok v) ∨
        alphaLoop dictionary l r i = .error .substringNotFound := by
  intro l
  induction l with
  | nil => intro r i; exact Or.inl ⟨r, rfl⟩
  | cons c rest ih =>
    intro r i
    cases hc : index dictionary c with
    | none => exact Or.inr (by simp [alphaLoop, hc])
    | some idx => simpa [alphaLoop, hc] using ih _ _

end YidPy

namespace YidPy

open scoped List

/-- C1: the spec claims `decode(encode_raw(n)) == n` for every non-negative
`n` and every fixed `(pad_up, secure_key)`.  The code computes the top power
as the UNVERIFIED float estimate `t = int(math.log(number, 62))`, and CPython
evaluates `math.log(62 ** 15, 62)` to `14.999999999999998`, so `int` gives 14
instead of 15.  This theorem evaluates the embedded code at that observed
estimate: encoding `62 ** 15` (pad_up 0, canonical alphabet) yields the
string `"a" * 15`, which decodes to 0, not `62 ** 15` — the round-trip
property fails on the code. -/
theorem roundtrip_fails_at_pow15 :
    Encoder.encode_raw (fun _ => 14) (Encoder.mk 0 _DICTIONARY Transform.NONE)
        ((62 : ℤ) ^ (15 : ℕ)) = .ok (List.replicate 15 'a')
    ∧ Encoder.decode (Encoder.mk 0 _DICTIONARY Transform.NONE)
        (List.replicate 15 'a') = .ok 0
    ∧ (0 : ℤ) ≠ (62 : ℤ) ^ (15 : ℕ) :=
  ⟨by decide, by decide, by decide⟩

/-- C2: the spec claims the encoding is the minimal base-62 numeral (length
`t + 1` with `62 ^ t ≤ number < 62 ^ (t + 1)`, no extra leading zero-digit
characters) and that any floating-point estimate of `t` is verified exactly
with integer arithmetic.  The code never verifies the estimate, and CPython
evaluates `math.log(62 ** 9 - 1, 62)` to exactly `9.0` (the argument rounds
up to the float `62.0 ** 9`), so `int` gives 9 instead of 8.  At that
observed estimate the code emits an 10-character string with an extra
leading `'a'` (the alphabet's index-0 character) for the nonzero value
`62 ** 9 - 1`, which is not the minimal 9-digit representation. -/
theorem not_minimal_at_pow9_minus_one :
    _num_to_alpha_est (fun _ => 9) ((62 : ℤ) ^ (9 : ℕ) - 1) _DICTIONARY 0 =
        .ok ('a' :: List.replicate 9 'Z')
    ∧ ('a' :: List.replicate 9 'Z').length = 10
    ∧ ¬ ((62 : ℕ) ^ (10 - 1) ≤ 62 ^ (9 : ℕ) - 1)
    ∧ (62 : ℤ) ^ (9 : ℕ) - 1 ≠ 0
    ∧ 'a' = _DICTIONARY.getD 0 'a' :=
  ⟨by decide, by decide, by decide, by decide, by decide⟩

/-- C3 counterexample: the claim says decode fails with an error whenever the
input text is empty, but `_alpha_to_num` runs its loop zero times on the
empty string and returns 0 (pad_up 0) without any error. -/
theorem decode_empty_returns_zero :
    _alpha_to_num [] _DICTIONARY 0 = .ok 0 := by decide

/-- C3 (amended): decode fails — with the `ValueError` raised by
`dictionary.index`, the source's implicit `InvalidInput` signal — exactly
when the text contains a character not in the active alphabet; it never
silently returns a value in that case, and the empty string is NOT rejected:
it decodes to `0 - padOffset pad_up` without error. -/
theorem decode_error_iff_bad_char :
    ∀ (s dictionary : List Char) (pad_up : ℤ),
      (_alpha_to_num s dictionary pad_up = .error .substringNotFound ↔
        ∃ c ∈ s, c ∉ dictionary)
      ∧ ((∃ v, _alpha_to_num s dictionary pad_up = .ok v) ↔
        ¬ ∃ c ∈ s, c ∉ dictionary)
      ∧ _alpha_to_num [] dictionary pad_up = .ok (0 - padOffset pad_up) := by
  intro s dictionary pad_up
  refine ⟨?_, ?_, by simp [_alpha_to_num, alphaLoop, Except.map]⟩
  · rw [show (∃ c ∈ s, c ∉ dictionary) ↔ ∃ c ∈ s.reverse, c ∉ dictionary by
      simp [List.mem_reverse]]
    rw [← alphaLoop_error_iff dictionary s.reverse 0 0]
    unfold _alpha_to_num
    cases halpha : alphaLoop dictionary s.reverse 0 0 <;> simp [Except.map]
  · rw [show (∃ c ∈ s, c ∉ dictionary) ↔ ∃ c ∈ s.reverse, c ∉ dictionary by
      simp [List.mem_reverse]]
    rw [← alphaLoop_error_iff dictionary s.reverse 0 0]
    unfold _alpha_to_num
    rcases alphaLoop_ok_or_error dictionary s.reverse 0 0 with ⟨v, hv⟩ | herr
    · simp [hv, Except.map]
    · simp [herr, Except.map]

/-- C3 witness: the amended characterization instantiated at the concrete
input `"!"` (a character outside every alphabet considered). -/
theorem decode_error_iff_bad_char_witness :
    (_alpha_to_num ['!'] _DICTIONARY 0 = .error .substringNotFound ↔
      ∃ c ∈ ['!'], c ∉ _DICTIONARY)
    ∧ ((∃ v, _alpha_to_num ['!'] _DICTIONARY 0 = .ok v) ↔
      ¬ ∃ c ∈ ['!'], c ∉ _DICTIONARY)
    ∧ _alpha_to_num [] _DICTIONARY 0 = .ok (0 - padOffset 0) :=
  decode_error_iff_bad_char ['!'] _DICTIONARY 0

/-- C5: padding semantics.  `pad_up = 0` and `pad_up = 1` encode identically
(the offset branch requires `pad_up > 1`); for `pad_up ≥ 2` encoding adds
`62 ^ (pad_up - 1)` to the number before conversion, and decoding subtracts
`62 ^ (pad_up - 1)` from the accumulated value before returning — the offset
is exactly inverted when the same `pad_up` is supplied to both sides.  This
holds for every log estimate, so it is independent of the float issue. -/
theorem padding_offset_semantics :
    (∀ (est : ℕ → ℕ) (dictionary : List Char) (number : ℤ),
      _num_to_alpha_est est number dictionary 0 = _num_to_alpha_est est number dictionary 1)
    ∧ (∀ (est : ℕ → ℕ) (dictionary : List Char) (number pad_up : ℤ), 2 ≤ pad_up →
      _num_to_alpha_est est number dictionary pad_up =
        _num_to_alpha_est est (number + (62 : ℤ) ^ (pad_up - 1).toNat) dictionary 0)
    ∧ (∀ (dictionary s : List Char) (pad_up : ℤ), 2 ≤ pad_up →
      _alpha_to_num s dictionary pad_up =
        (_alpha_to_num s dictionary 0).map (fun r => r - (62 : ℤ) ^ (pad_up - 1).toNat)) := by
  have hpz : padOffset 0 = 0 := by norm_num [padOffset]
  have hpo : padOffset 1 = 0 := by norm_num [padOffset]
  have hpk : ∀ pad_up : ℤ, 2 ≤ pad_up → padOffset pad_up = (62 : ℤ) ^ (pad_up - 1).toNat := by
    intro pad_up hp
    rw [padOffset, if_pos (by omega), dict_len_eq]
    norm_num
  refine ⟨?_, ?_, ?_⟩
  · intro est dictionary number
    simp only [_num_to_alpha_est, hpz, hpo]
  · intro est dictionary number pad_up hp
    simp only [_num_to_alpha_est, hpk pad_up hp, hpz, add_zero]
  · intro dictionary s pad_up hp
    simp only [_alpha_to_num, hpk pad_up hp, hpz]
    cases halpha : alphaLoop dictionary s.reverse 0 0 <;> simp [Except.map]

/-- C5 witness: the three components instantiated at concrete inputs
(`pad_up = 2`, so the offset is `62 ^ 1`). -/
theorem padding_offset_semantics_witness :
    _num_to_alpha_est (fun _ => 1) 5 _DICTIONARY 0 = _num_to_alpha_est (fun _ => 1) 5 _DICTIONARY 1
    ∧ _num_to_alpha_est (fun _ => 1) 5 _DICTIONARY 2 =
        _num_to_alpha_est (fun _ => 1) (5 + (62 : ℤ) ^ ((2 : ℤ) - 1).toNat) _DICTIONARY 0
    ∧ _alpha_to_num ['b', 'h'] _DICTIONARY 2 =
        (_alpha_to_num ['b', 'h'] _DICTIONARY 0).map
          (fun r => r - (62 : ℤ) ^ ((2 : ℤ) - 1).toNat) :=
  ⟨padding_offset_semantics.1 (fun _ => 1) _DICTIONARY 5,
   padding_offset_semantics.2.1 (fun _ => 1) _DICTIONARY 5 2 (by norm_num),
   padding_offset_semantics.2.2 _DICTIONARY ['b', 'h'] 2 (by norm_num)⟩

/-- C7: case-transform correctness.  `Encoder.encode` with transform `UPPER`
equals `Encoder.encode_raw` with every character upper-cased, `LOWER` equals
the raw encoding lower-cased, and `NONE` returns the raw encoding unchanged,
for every configuration and number. -/
theorem transform_correctness :
    ∀ (est : ℕ → ℕ) (pad_up : ℤ) (dictionary : List Char) (number : ℤ),
      Encoder.encode est (Encoder.mk pad_up dictionary Transform.UPPER) number =
        (Encoder.encode_raw est (Encoder.mk pad_up dictionary Transform.UPPER) number).map pyUpper
      ∧ Encoder.encode est (Encoder.mk pad_up dictionary Transform.LOWER) number =
        (Encoder.encode_raw est (Encoder.mk pad_up dictionary Transform.LOWER) number).map pyLower
      ∧ Encoder.encode est (Encoder.mk pad_up dictionary Transform.NONE) number =
        Encoder.encode_raw est (Encoder.mk pad_up dictionary Transform.NONE) number := by
  intro est pad_up dictionary number
  refine ⟨?_, ?_, ?_⟩ <;>
    cases h : _num_to_alpha_est est number dictionary pad_up <;>
      simp [Encoder.encode, Encoder.encode_raw, _apply_transform, h, Except.map, Except.bind]

/-- C7 witness: the three equalities instantiated at a concrete
configuration and number. -/
theorem transform_correctness_witness :
    Encoder.encode (fun _ => 2) (Encoder.mk 0 _DICTIONARY Transform.UPPER) 12345 =
      (Encoder.encode_raw (fun _ => 2) (Encoder.mk 0 _DICTIONARY Transform.UPPER) 12345).map pyUpper
    ∧ Encoder.encode (fun _ => 2) (Encoder.mk 0 _DICTIONARY Transform.LOWER) 12345 =
      (Encoder.encode_raw (fun _ => 2) (Encoder.mk 0 _DICTIONARY Transform.LOWER) 12345).map pyLower
    ∧ Encoder.encode (fun _ => 2) (Encoder.mk 0 _DICTIONARY Transform.NONE) 12345 =
      Encoder.encode_raw (fun _ => 2) (Encoder.mk 0 _DICTIONARY Transform.NONE) 12345 :=
  transform_correctness (fun _ => 2) 0 _DICTIONARY 12345

/-- C8 counterexample: the claim says encode fails for every negative number
and every `pad_up`, but with `pad_up = 2` the padding offset 62 absorbs the
negative input −1: the code returns `"Z"` (61 = −1 + 62) without any error.
(The observed CPython estimate `int(math.log(61, 62))` is 0.) -/
theorem encode_negative_accepted_with_padding :
    _num_to_alpha_est (fun _ => 0) (-1) _DICTIONARY 2 = .ok (['Z']) := by decide

/-- C8 (amended): encode fails — with the `ValueError: math domain error`
raised by `math.log`, the source's implicit `InvalidInput` signal — exactly
when the number AFTER the padding offset is negative; in particular for
`pad_up ≤ 1` every negative number fails, but for `pad_up ≥ 2` a negative
number with `number + 62 ^ (pad_up - 1) ≥ 0` is accepted.  This holds for
every log estimate, because the domain check happens before the estimate. -/
theorem encode_error_iff_negative_after_offset :
    ∀ (est : ℕ → ℕ) (dictionary : List Char) (number pad_up : ℤ),
      (_num_to_alpha_est est number dictionary pad_up = .error .mathDomain ↔
        number + padOffset pad_up < 0)
      ∧ ((∃ s, _num_to_alpha_est est number dictionary pad_up = .ok s) ↔
        0 ≤ number + padOffset pad_up) := by
  intro est dictionary number pad_up
  simp only [_num_to_alpha_est]
  by_cases h0 : number + padOffset pad_up = 0
  · rw [if_pos h0]
    constructor
    · simp; omega
    · simp; omega
  · rw [if_neg h0]
    by_cases hneg : number + padOffset pad_up < 0
    · rw [if_pos hneg]
      constructor
      · simp; omega
      · simp; omega
    · rw [if_neg hneg]
      constructor
      · simp; omega
      · simp; omega

/-- C8 witness: the amended characterization instantiated at the concrete
input −1 with `pad_up = 0` (no offset), where encode does fail. -/
theorem encode_error_iff_negative_after_offset_witness :
    (_num_to_alpha_est (fun _ => 0) (-1) _DICTIONARY 0 = .error .mathDomain ↔
      (-1 : ℤ) + padOffset 0 < 0)
    ∧ ((∃ s, _num_to_alpha_est (fun _ => 0) (-1) _DICTIONARY 0 = .ok s) ↔
      0 ≤ (-1 : ℤ) + padOffset 0) :=
  encode_error_iff_negative_after_offset (fun _ => 0) _DICTIONARY (-1) 0

/-- C9: an unrecognized transform tag — any Python value other than the
three `Transform` enum members, modelled by the `invalid` constructor —
makes `_apply_transform` raise `ConverterError` for every input string; the
error is returned, never silently ignored. -/
theorem invalid_transform_raises_converter_error :
    ∀ (value : List Char) (t : Transform),
      t ≠ Transform.NONE → t ≠ Transform.UPPER → t ≠ Transform.LOWER →
      ∃ v, t = Transform.invalid v
        ∧ _apply_transform value t = .error (.invalidTransform v) := by
  intro value t h1 h2 h3
  cases t with
  | NONE => exact absurd rfl h1
  | UPPER => exact absurd rfl h2
  | LOWER => exact absurd rfl h3
  | invalid v => exact ⟨v, rfl, rfl⟩

/-- C9 witness: the repository's own test case, `_apply_transform("test",
"invalid")`, raises the `ConverterError`. -/
theorem invalid_transform_raises_converter_error_witness :
    ∃ v, Transform.invalid ("invalid") = Transform.invalid v
      ∧ _apply_transform (("test").toList) (Transform.invalid ("invalid")) =
          .error (.invalidTransform v) :=
  invalid_transform_raises_converter_error (("test").toList) (Transform.invalid ("invalid"))
    (by decide) (by decide) (by decide)

theorem secure_dictionary_unfold (sha256hex sha512hex : List Char)
    (hlen : sha256hex.length = 64) :
    _secure_dictionary sha256hex sha512hex =
      .ok ((((sha256hex.take _DICT_LEN).zip _DICTIONARY).mergeSort
        (fun x y => decide (y.1 ≤ x.1))).map (fun p => p.2)) := by
  have hnl : ¬ (sha256hex.length < _DICT_LEN) := by rw [hlen, dict_len_eq]; norm_num
  simp only [_secure_dictionary]
  rw [if_neg hnl, if_neg hnl]

/-- C4: alphabet derivation.  For every SHA-256 hex digest (length 64) the
derived alphabet is the canonical alphabet's characters read off from the
pairs (hex char at position i, canonical char at position i), for i over the
first 62 hex characters, rearranged into an order that is (a) a permutation
of those pairs, (b) sorted with the hex keys in descending order, and
(c) stable — for every key the pairs carrying that key appear in their
original relative order (the filtered subsequences coincide).  The SHA-512
branch is dead at digest length 64.  For an absent or empty secure key the
canonical alphabet is used unchanged, with no derivation performed. -/
theorem secure_dictionary_stable_descending_sort :
    (∀ sha256hex sha512hex : List Char, sha256hex.length = 64 →
      ∃ paired : List (Char × Char),
        _secure_dictionary sha256hex sha512hex = .ok (paired.map (fun p => p.2))
        ∧ paired.Perm ((sha256hex.take 62).zip _DICTIONARY)
        ∧ paired.Pairwise (fun x y => y.1 ≤ x.1)
        ∧ ∀ k : Char,
            paired.filter (fun p => decide (p.1 = k)) =
              ((sha256hex.take 62).zip _DICTIONARY).filter (fun p => decide (p.1 = k)))
    ∧ (∀ sha256hex sha512hex : List Char,
        pickDictionary none sha256hex sha512hex = .ok _DICTIONARY
        ∧ pickDictionary (some ("")) sha256hex sha512hex = .ok _DICTIONARY) := by
  constructor
  · intro sha256hex sha512hex hlen
    rw [show (62 : ℕ) = _DICT_LEN from dict_len_eq.symm]
    set pairs := (sha256hex.take _DICT_LEN).zip _DICTIONARY with hpairs
    set cmp := fun x y : Char × Char => decide (y.1 ≤ x.1) with hcmp
    have htrans : ∀ a b c : Char × Char, cmp a b → cmp b c → cmp a c := by
      intro a b c hab hbc
      simp only [hcmp, decide_eq_true_eq] at *
      exact le_trans hbc hab
    have htotal : ∀ a b : Char × Char, cmp a b || cmp b a := by
      intro a b
      simp only [hcmp, Bool.or_eq_true, decide_eq_true_eq]
      exact le_total _ _
    refine ⟨pairs.mergeSort cmp, secure_dictionary_unfold _ _ hlen,
      List.mergeSort_perm pairs cmp, ?_, ?_⟩
    · have hpw := List.sorted_mergeSort htrans htotal pairs
      exact List.Pairwise.imp (fun hab => by simpa [hcmp] using hab) hpw
    · intro k
      set P := fun p : Char × Char => decide (p.1 = k) with hP
      have hpwf : (pairs.filter P).Pairwise (fun a b => cmp a b) := by
        apply List.pairwise_of_forall_mem_list
        intro a ha b hb
        have ha' : a.1 = k := by simpa [hP] using (List.mem_filter.mp ha).2
        have hb' : b.1 = k := by simpa [hP] using (List.mem_filter.mp hb).2
        simp [hcmp, ha', hb']
      have h1 : pairs.filter P <+ pairs.mergeSort cmp :=
        List.sublist_mergeSort htrans htotal hpwf (List.filter_sublist pairs)
      have h2 : (pairs.mergeSort cmp).filter P ~ pairs.filter P :=
        (List.mergeSort_perm pairs cmp).filter P
      have h3 : pairs.filter P <+ (pairs.mergeSort cmp).filter P := by
        have h4 := h1.filter P
        simpa [List.filter_filter] using h4
      exact (h3.eq_of_length h2.length_eq.symm).symm
  · intro sha256hex sha512hex
    exact ⟨rfl, rfl⟩

/-- C4 witness: the stable-descending-sort characterization instantiated at
the concrete digest consisting of 64 `'0'` characters, and the empty/absent
key cases. -/
theorem secure_dictionary_stable_descending_sort_witness :
    (∃ paired : List (Char × Char),
      _secure_dictionary (List.replicate 64 '0') [] = .ok (paired.map (fun p => p.2))
      ∧ paired.Perm (((List.replicate 64 '0').take 62).zip _DICTIONARY)
      ∧ paired.Pairwise (fun x y => y.1 ≤ x.1)
      ∧ ∀ k : Char,
          paired.filter (fun p => decide (p.1 = k)) =
            (((List.replicate 64 '0').take 62).zip _DICTIONARY).filter
              (fun p => decide (p.1 = k)))
    ∧ pickDictionary none [] [] = .ok _DICTIONARY
    ∧ pickDictionary (some ("")) [] [] = .ok _DICTIONARY :=
  ⟨secure_dictionary_stable_descending_sort.1 (List.replicate 64 '0') [] (by decide),
   (secure_dictionary_stable_descending_sort.2 [] []).1,
   (secure_dictionary_stable_descending_sort.2 [] []).2⟩

/-- C6: alphabet invariant and closure.  For every SHA-256 hex digest the
derived alphabet has exactly 62 characters with no duplicates — it is a
permutation of the canonical alphabet — and consequently every character of
every successfully encoded output (for any dictionary that is such a
permutation, any pad_up and any log estimate) belongs to the canonical
62-character set. -/
theorem alphabet_invariant_and_closure :
    (∀ sha256hex sha512hex : List Char, sha256hex.length = 64 →
      ∃ d : List Char, _secure_dictionary sha256hex sha512hex = .ok d
        ∧ d.length = 62 ∧ d.Nodup ∧ d.Perm _DICTIONARY)
    ∧ (∀ (est : ℕ → ℕ) (number pad_up : ℤ) (dictionary out : List Char),
        dictionary.Perm _DICTIONARY →
        _num_to_alpha_est est number dictionary pad_up = .ok out →
        ∀ c ∈ out, c ∈ _DICTIONARY) := by
  constructor
  · intro sha256hex sha512hex hlen
    refine ⟨_, secure_dictionary_unfold _ _ hlen, ?_⟩
    set pairs := (sha256hex.take _DICT_LEN).zip _DICTIONARY with hpairs
    set cmp := fun x y : Char × Char => decide (y.1 ≤ x.1) with hcmp
    have hsnd : pairs.map (fun p => p.2) = _DICTIONARY := by
      apply List.map_snd_zip
      rw [List.length_take, hlen]
      decide
    have hperm : (pairs.mergeSort cmp).map (fun p => p.2) ~ pairs.map (fun p => p.2) :=
      (List.mergeSort_perm pairs cmp).map _
    have hd : (pairs.mergeSort cmp).map (fun p => p.2) ~ _DICTIONARY := hsnd ▸ hperm
    exact ⟨hd.length_eq.trans (by decide), hd.symm.nodup (by decide), hd⟩
  · intro est number pad_up dictionary out hperm hok c hc
    have h62 : dictionary.length = 62 := hperm.length_eq.trans (by decide)
    simp only [_num_to_alpha_est] at hok
    by_cases h0 : number + padOffset pad_up = 0
    · rw [if_pos h0] at hok
      simp only [Except.ok.injEq] at hok
      subst hok
      have h0lt : (0 : ℕ) < dictionary.length := by omega
      simp only [List.mem_singleton] at hc
      rw [hc, getD_eq_get _ _ _ h0lt]
      exact hperm.subset (List.get_mem _ _ h0lt)
    · rw [if_neg h0] at hok
      by_cases hneg : number + padOffset pad_up < 0
      · rw [if_pos hneg] at hok
        exact absurd hok (by simp)
      · rw [if_neg hneg] at hok
        simp only [Except.ok.injEq] at hok
        subst hok
        exact hperm.subset (mem_numLoop dictionary h62 _ _ c hc)

/-- C6 witness: the invariant at the concrete digest of 64 `'f'` characters,
and the closure at the concrete encoding of 12345 (which is `"h"` under the
estimate 0). -/
theorem alphabet_invariant_and_closure_witness :
    (∃ d : List Char, _secure_dictionary (List.replicate 64 'f') [] = .ok d
      ∧ d.length = 62 ∧ d.Nodup ∧ d.Perm _DICTIONARY)
    ∧ ∀ c ∈ (['h'] : List Char), c ∈ _DICTIONARY :=
  ⟨alphabet_invariant_and_closure.1 (List.replicate 64 'f') [] (by decide),
   alphabet_invariant_and_closure.2 (fun _ => 0) 12345 0 _DICTIONARY ['h']
     (List.Perm.refl _) (by decide)⟩

/-- C10 counterexample: the implicit claim says that for every `pad_up ≥ 2`
and negative `n` with `n + 62 ^ (pad_up - 1) ≥ 0`, encoding succeeds and
decoding returns `n`.  At `pad_up = 17`, `n = 62 ** 15 - 62 ** 16 < 0` the
effective number is exactly `62 ** 15`, where CPython's estimate
`int(math.log(62 ** 15, 62))` is 14 (observed value `14.999999999999998`):
encoding succeeds but produces `"a" * 15`, which decodes to `-(62 ** 16)`,
not `n`. -/
theorem padded_negative_roundtrip_fails_at_pow15 :
    ((62 : ℤ) ^ (15 : ℕ) - 62 ^ (16 : ℕ) < 0)
    ∧ _num_to_alpha_est (fun _ => 14) ((62 : ℤ) ^ (15 : ℕ) - 62 ^ (16 : ℕ)) _DICTIONARY 17 =
        .ok (List.replicate 15 'a')
    ∧ _alpha_to_num (List.replicate 15 'a') _DICTIONARY 17 = .ok (-((62 : ℤ) ^ (16 : ℕ)))
    ∧ -((62 : ℤ) ^ (16 : ℕ)) ≠ (62 : ℤ) ^ (15 : ℕ) - 62 ^ (16 : ℕ) :=
  ⟨by decide, by decide, by decide, by decide⟩

/-- C10 (amended): for every `pad_up ≥ 2` and negative `number` with
`number + 62 ^ (pad_up - 1) ≥ 0`, encoding succeeds without error for EVERY
log estimate (the domain check passes), and decoding the resulting string
with the same alphabet and `pad_up` returns `number` PROVIDED the float
estimate at the effective number is exact (it equals `Nat.log 62`) — the
exactness proviso conditions only the decode half, and the counterexample
shows it cannot be dropped there. -/
theorem padded_negative_roundtrip_exact :
    ∀ (est : ℕ → ℕ) (dictionary : List Char) (pad_up number : ℤ),
      dictionary.length = 62 → dictionary.Nodup →
      2 ≤ pad_up → number < 0 → 0 ≤ number + padOffset pad_up →
      ∃ s, _num_to_alpha_est est number dictionary pad_up = .ok s
        ∧ (est (number + padOffset pad_up).toNat =
              Nat.log 62 (number + padOffset pad_up).toNat →
            _alpha_to_num s dictionary pad_up = .ok number) := by
  intro est dictionary pad_up number h62 hnd hp hneg hnn
  by_cases h0 : number + padOffset pad_up = 0
  · have h0lt : (0 : ℕ) < dictionary.length := by omega
    have hidx := index_get dictionary hnd 0 h0lt
    refine ⟨[dictionary.getD 0 'a'], ?_, ?_⟩
    · simp only [_num_to_alpha_est, if_pos h0]
    · intro _
      rw [getD_eq_get _ _ _ h0lt]
      simp only [_alpha_to_num]
      rw [show ([dictionary.get ⟨0, h0lt⟩] : List Char).reverse =
        [dictionary.get ⟨0, h0lt⟩] from rfl]
      have hl : alphaLoop dictionary [dictionary.get ⟨0, h0lt⟩] 0 0 =
          .ok ((0 : ℤ) + ((0 : ℕ) : ℤ) * ((_DICT_LEN : ℤ)) ^ (0 : ℕ)) := by
        simp only [alphaLoop, hidx]
      rw [hl]
      simp only [Except.map, Except.ok.injEq]
      push_cast
      omega
  · have hpos : 0 < number + padOffset pad_up := lt_of_le_of_ne hnn (Ne.symm h0)
    have hefft : ((number + padOffset pad_up).toNat : ℤ) = number + padOffset pad_up :=
      Int.toNat_of_nonneg hnn
    have hlt : (number + padOffset pad_up).toNat <
        62 ^ (Nat.log 62 (number + padOffset pad_up).toNat + 1) :=
      Nat.lt_pow_succ_log_self (by norm_num) _
    refine ⟨numLoop dictionary (number + padOffset pad_up).toNat
      (est (number + padOffset pad_up).toNat), ?_, ?_⟩
    · simp only [_num_to_alpha_est, if_neg h0, if_neg (by omega : ¬ number + padOffset pad_up < 0)]
    · intro hest
      simp only [_alpha_to_num]
      rw [hest, alphaLoop_numLoop dictionary h62 hnd _ _ hlt]
      simp only [Except.map, Except.ok.injEq]
      omega

/-- C10 witness: `pad_up = 2`, `number = −1` (effective number 61, whose
float estimate 0 is exact): encode yields `"Z"` and decode returns −1. -/
theorem padded_negative_roundtrip_exact_witness :
    ∃ s, _num_to_alpha_est (fun _ => 0) (-1) _DICTIONARY 2 = .ok s
      ∧ _alpha_to_num s _DICTIONARY 2 = .ok (-1) := by
  obtain ⟨s, henc, hdec⟩ :=
    padded_negative_roundtrip_exact (fun _ => 0) _DICTIONARY 2 (-1)
      (by decide) (by decide) (by norm_num) (by norm_num) (by decide)
  refine ⟨s, henc, hdec ?_⟩
  rw [show ((-1 : ℤ) + padOffset 2).toNat = 61 from by decide]
  exact (Nat.log_of_lt (by norm_num)).symm

end YidPy
